import Mathlib

/-!
Verification of the OpenAPI document assembly core of the `utoipa` crate.

The crate's `src/lib.rs` declares the public traits (`OpenApi`, `Component`,
`Path`, `Modify`); the `openapi` module holding the schema/document value
types and the resolution, assembly and modification machinery is referenced
(`pub mod openapi;`) but its code is not part of the sources at hand, so the
data model and the engines below are modelled from the specification of the
core (schema resolver, path assembler, modifier runner).  Rust's `&mut`
mutation is embedded as explicit state passing, maps preserving insertion
order are embedded as association lists, and fallible steps return the
collected `Diagnostic` values alongside their results.
-/

set_option autoImplicit false

/-- Mode of a composed schema: one-of or all-of. -/
inductive ComposedMode where
  | oneOf
  | allOf
  deriving DecidableEq

mutual

/-- Modelled from the spec: resolved schema node (the `openapi::schema` value
types are not in the sources).  A node is a primitive, an object with ordered
properties and a required set, an array, a composed node, an enumeration of
variant labels, or a named reference into Components. -/
inductive SchemaNode where
  | primitive (kind : String) (format : Option String)
  | object (properties : PropList) (required : List String)
  | array (items : SchemaNode)
  | composed (mode : ComposedMode) (variants : NodeList)
  | enumeration (variants : List String)
  | ref (name : String)

/-- Ordered mapping from property name to schema node (insertion order is part
of the observable contract). -/
inductive PropList where
  | nil
  | cons (pname : String) (node : SchemaNode) (rest : PropList)

/-- Ordered sequence of schema nodes (variants of a composed schema). -/
inductive NodeList where
  | nil
  | cons (node : SchemaNode) (rest : NodeList)

end

deriving instance DecidableEq for SchemaNode, PropList, NodeList

mutual

/-- Modelled from the spec: type descriptor, the normalized external input
describing a data shape.  Descriptors may reference shapes by name
(`namedRef`), which is how self-referential and mutually-referential shapes
are expressed. -/
inductive TypeDescriptor where
  | primitive (kind : String) (format : Option String)
  | obj (name : String) (fields : FieldList)
  | array (item : TypeDescriptor)
  | enumDesc (name : String) (variants : List String)
  | namedRef (name : String)

/-- Ordered list of (field name, child descriptor, optional flag). -/
inductive FieldList where
  | nil
  | cons (fname : String) (fdesc : TypeDescriptor) (optional : Bool) (rest : FieldList)

end

deriving instance DecidableEq for TypeDescriptor, FieldList

/-- Keys of a property list, in order. -/
def PropList.keys : PropList → List String
  | .nil => []
  | .cons p _ rest => p :: rest.keys

/-- Field names of a field list, in order. -/
def FieldList.names : FieldList → List String
  | .nil => []
  | .cons f _ _ rest => f :: rest.names

/-- Names of the non-optional fields, in order. -/
def FieldList.requiredNames : FieldList → List String
  | .nil => []
  | .cons f _ opt rest => if opt then rest.requiredNames else f :: rest.requiredNames

/-- Plain list view of a field list. -/
def FieldList.toList : FieldList → List (String × TypeDescriptor × Bool)
  | .nil => []
  | .cons f d opt rest => (f, d, opt) :: rest.toList

/-- HTTP method of a path item, named after the crate's `PathItemType`. -/
inductive PathItemType where
  | get
  | post
  | put
  | delete
  | options
  | head
  | patch
  | trace
  deriving DecidableEq

/-- Location of a parameter, named after the crate's `ParameterIn`. -/
inductive ParameterIn where
  | path
  | query
  | header
  | cookie
  deriving DecidableEq

/-- Modelled from the spec: the diagnostic taxonomy of the build (the
diagnostics themselves are not in the sources).  Each diagnostic carries the
offending identifiers; a schema name conflict identifies both conflicting
shapes. -/
inductive Diagnostic where
  | schemaNameConflict (name : String) (first second : TypeDescriptor)
  | danglingReference (name : String)
  | unboundPathParameter (template : String) (name : String)
  | unusedDeclaredParameter (template : String) (name : String)
  | duplicateRoute (template : String) (method : PathItemType)
  | duplicateOperationId (id : String)
  | modifierInducedInconsistency (name : String)
  deriving DecidableEq

/-- Association list lookup: first entry with the given key. -/
def alistLookup {α β : Type} [DecidableEq α] : List (α × β) → α → Option β
  | [], _ => none
  | (k, v) :: rest, a => if k = a then some v else alistLookup rest a

/-- Association list in-place update of the first entry with the given key;
keys and their order are unchanged. -/
def alistUpdate {α β : Type} [DecidableEq α] : List (α × β) → α → β → List (α × β)
  | [], _, _ => []
  | (k, v) :: rest, a, b =>
      if k = a then (k, b) :: rest else (k, v) :: alistUpdate rest a b

/-- Registry entry: the originating descriptor of a registered name, and its
computed expansion once available (`none` is the in-progress placeholder
marker inserted before expansion). -/
structure RegEntry where
  desc : TypeDescriptor
  node : Option SchemaNode
  deriving DecidableEq

/-- Components-in-progress: ordered mapping from schema name to entry. -/
abbrev Registry := List (String × RegEntry)

mutual

/-- Modelled from the spec: the schema resolver (`resolve(descriptor,
registry)`), whose code is not in the sources.  Primitives and arrays
translate structurally; a `namedRef` becomes a `ref`; a named descriptor
already present in the registry returns `ref` immediately (breaking cycles),
reporting a conflict when the registered shape differs structurally from the
one being resolved (the registry keeps the first-seen definition); a fresh
named descriptor first inserts a placeholder under its name, then computes
the structural expansion, then overwrites the placeholder and returns `ref`. -/
def resolve (d : TypeDescriptor) (reg : Registry) :
    SchemaNode × Registry × List Diagnostic :=
  match d with
  | .primitive k f => (.primitive k f, reg, [])
  | .namedRef n => (.ref n, reg, [])
  | .array item =>
      let (s, reg1, ds) := resolve item reg
      (.array s, reg1, ds)
  | .enumDesc n variants =>
      match alistLookup reg n with
      | some e =>
          if e.desc = .enumDesc n variants then (.ref n, reg, [])
          else (.ref n, reg, [.schemaNameConflict n e.desc (.enumDesc n variants)])
      | none =>
          let reg1 := reg ++ [(n, ⟨.enumDesc n variants, none⟩)]
          (.ref n,
           alistUpdate reg1 n ⟨.enumDesc n variants, some (.enumeration variants)⟩,
           [])
  | .obj n fields =>
      match alistLookup reg n with
      | some e =>
          if e.desc = .obj n fields then (.ref n, reg, [])
          else (.ref n, reg, [.schemaNameConflict n e.desc (.obj n fields)])
      | none =>
          let reg1 := reg ++ [(n, ⟨.obj n fields, none⟩)]
          let (props, req, reg2, ds) := resolveFields fields reg1
          (.ref n,
           alistUpdate reg2 n ⟨.obj n fields, some (.object props req)⟩,
           ds)

/-- Resolve an ordered field list into ordered properties and the required
set, threading the registry; a field marked optional is present in the
properties but absent from the required set. -/
def resolveFields (fs : FieldList) (reg : Registry) :
    PropList × List String × Registry × List Diagnostic :=
  match fs with
  | .nil => (.nil, [], reg, [])
  | .cons fname fdesc opt rest =>
      let (s, reg1, ds1) := resolve fdesc reg
      let (props, req, reg2, ds2) := resolveFields rest reg1
      (.cons fname s props, if opt then req else fname :: req, reg2, ds1 ++ ds2)

end

/-- Self-referential descriptor from the spec's testable properties:
`Node{name:"Node", children: Array(NamedRef("Node"))}`. -/
def nodeDesc : TypeDescriptor :=
  .obj "Node" (.cons "children" (.array (.namedRef "Node")) false .nil)

example :
    resolve nodeDesc [] =
      (.ref "Node",
       [("Node",
         ⟨nodeDesc,
          some (.object (.cons "children" (.array (.ref "Node")) .nil) ["children"])⟩)],
       []) := by decide

/-- Modelled from the spec: a declared parameter of a handler descriptor
(name, location, required flag, type descriptor). -/
structure ParameterDescriptor where
  name : String
  location : ParameterIn
  required : Bool
  schema : TypeDescriptor
  deriving DecidableEq

/-- Modelled from the spec: a declared response of a handler descriptor
(status code, description, optional body type descriptor). -/
structure ResponseDescriptor where
  status : String
  description : String
  body : Option TypeDescriptor
  deriving DecidableEq

/-- Modelled from the spec: normalized handler descriptor, the external input
of the path assembler. -/
structure HandlerDescriptor where
  method : PathItemType
  path : String
  params : List ParameterDescriptor
  requestBody : Option TypeDescriptor
  responses : List ResponseDescriptor
  tags : List String
  operationId : Option String
  deprecated : Bool
  summary : Option String
  description : Option String
  deriving DecidableEq

/-- Resolved parameter of an operation. -/
structure Parameter where
  name : String
  location : ParameterIn
  required : Bool
  schema : SchemaNode
  deriving DecidableEq

/-- Resolved response: description and optional content schema (typically a
`ref`). -/
structure Response where
  description : String
  content : Option SchemaNode
  deriving DecidableEq

/-- Modelled from the spec: one HTTP method's behavior on one path template. -/
structure Operation where
  summary : Option String
  description : Option String
  operationId : Option String
  parameters : List Parameter
  requestBody : Option SchemaNode
  responses : List (String × Response)
  tags : List String
  deprecated : Bool
  deriving DecidableEq

/-- Ordered mapping from HTTP method to operation for one path template. -/
abbrev PathItem := List (PathItemType × Operation)

/-- Ordered mapping from path template to path item (template insertion
order is preserved). -/
abbrev Paths := List (String × PathItem)

/-- Application metadata, passed through verbatim into the document. -/
structure Info where
  title : String
  version : String
  description : Option String
  deriving DecidableEq

/-- Registry of named, reusable schema nodes of a document. -/
abbrev Components := List (String × SchemaNode)

/-- Modelled from the spec: the document value (`openapi::OpenApi`, whose
code is not in the sources): Info + Components + Paths. -/
structure OpenApi where
  info : Info
  components : Components
  paths : Paths
  deriving DecidableEq

/-- Scan the characters of a path template, collecting the `{name}`
placeholders in order; the accumulator holds the reversed characters of the
placeholder currently being read, if any. -/
def scanPlaceholders : List Char → Option (List Char) → List String
  | [], _ => []
  | c :: rest, none =>
      if c = '{' then scanPlaceholders rest (some [])
      else scanPlaceholders rest none
  | c :: rest, some acc =>
      if c = '}' then String.mk acc.reverse :: scanPlaceholders rest none
      else scanPlaceholders rest (some (c :: acc))

/-- Placeholders of a path template, ordered, duplicates preserved. -/
def extractPlaceholders (template : String) : List String :=
  scanPlaceholders template.data none

/-- Names of the declared path-location parameters, in order. -/
def pathParamNames (ps : List ParameterDescriptor) : List String :=
  (ps.filter (fun p => p.location = ParameterIn.path)).map (fun p => p.name)

/-- Cross-check the template's placeholders against the declared
path-location parameters: a placeholder with no matching declared parameter
is unbound, a declared path parameter with no matching placeholder is
unused; both directions are diagnostics, neither aborts the build. -/
def crossCheckDiags (template : String) (ps : List ParameterDescriptor) :
    List Diagnostic :=
  let phs := extractPlaceholders template
  let declared := pathParamNames ps
  (phs.filter (fun n => decide (n ∉ declared))).map
      (Diagnostic.unboundPathParameter template) ++
    (declared.filter (fun n => decide (n ∉ phs))).map
      (Diagnostic.unusedDeclaredParameter template)

/-- Resolve the declared parameters of a handler, threading the registry. -/
def resolveParams (ps : List ParameterDescriptor) (reg : Registry) :
    List Parameter × Registry × List Diagnostic :=
  match ps with
  | [] => ([], reg, [])
  | p :: rest =>
      let (s, reg1, ds1) := resolve p.schema reg
      let (ps1, reg2, ds2) := resolveParams rest reg1
      ({ name := p.name, location := p.location, required := p.required,
         schema := s } :: ps1, reg2, ds1 ++ ds2)

/-- Resolve an optional body type descriptor, threading the registry. -/
def resolveOptionalBody (b : Option TypeDescriptor) (reg : Registry) :
    Option SchemaNode × Registry × List Diagnostic :=
  match b with
  | none => (none, reg, [])
  | some d =>
      let (s, reg1, ds) := resolve d reg
      (some s, reg1, ds)

/-- Resolve the declared responses of a handler, threading the registry. -/
def resolveResponses (rs : List ResponseDescriptor) (reg : Registry) :
    List (String × Response) × Registry × List Diagnostic :=
  match rs with
  | [] => ([], reg, [])
  | r :: rest =>
      let (content, reg1, ds1) := resolveOptionalBody r.body reg
      let (rs1, reg2, ds2) := resolveResponses rest reg1
      ((r.status, { description := r.description, content := content }) :: rs1,
       reg2, ds1 ++ ds2)

/-- Insert an operation into the paths under (template, method).  A fresh
template appends a new path item at the end; a fresh method on an existing
template appends at the end of its path item; an occupied (template, method)
pair keeps the first-registered operation and reports a duplicate route. -/
def insertOperation (paths : Paths) (template : String) (m : PathItemType)
    (op : Operation) : Paths × List Diagnostic :=
  match alistLookup paths template with
  | none => (paths ++ [(template, [(m, op)])], [])
  | some item =>
      match alistLookup item m with
      | none => (alistUpdate paths template (item ++ [(m, op)]), [])
      | some _ => (paths, [.duplicateRoute template m])

/-- Operation registered in the paths at a (template, method) pair. -/
def operationAt (paths : Paths) (template : String) (m : PathItemType) :
    Option Operation :=
  match alistLookup paths template with
  | none => none
  | some item => alistLookup item m

/-- State threaded through the path assembler: the paths built so far, the
shared components-in-progress registry, the operation ids seen so far, and
the diagnostics collected so far. -/
structure AssembleState where
  paths : Paths
  registry : Registry
  seenOperationIds : List String
  diags : List Diagnostic
  deriving DecidableEq

/-- Check an operation id against the ids seen so far: a repeated id is
reported as a duplicate and the first registration is kept. -/
def opIdCheck (seen : List String) (oid : Option String) :
    List Diagnostic × List String :=
  match oid with
  | none => ([], seen)
  | some i =>
      if i ∈ seen then ([Diagnostic.duplicateOperationId i], seen)
      else ([], seen ++ [i])

/-- Operation built for a handler from its resolved parts. -/
def mkOperation (h : HandlerDescriptor) (params1 : List Parameter)
    (body1 : Option SchemaNode) (resps1 : List (String × Response)) :
    Operation :=
  { summary := h.summary, description := h.description,
    operationId := h.operationId, parameters := params1,
    requestBody := body1, responses := resps1, tags := h.tags,
    deprecated := h.deprecated }

/-- Modelled from the spec: processing of one handler descriptor by the path
assembler (whose code is not in the sources): cross-check placeholders
against declared path parameters, resolve every referenced type through the
shared registry, build the operation (reporting a duplicate operation id,
keeping the first), and insert it under (template, method) with
first-registration-wins semantics. -/
def processHandler (st : AssembleState) (h : HandlerDescriptor) :
    AssembleState :=
  let checkDiags := crossCheckDiags h.path h.params
  let rp := resolveParams h.params st.registry
  let rb := resolveOptionalBody h.requestBody rp.2.1
  let rr := resolveResponses h.responses rb.2.1
  let oc := opIdCheck st.seenOperationIds h.operationId
  let op := mkOperation h rp.1 rb.1 rr.1
  let ins := insertOperation st.paths h.path h.method op
  { paths := ins.1, registry := rr.2.1, seenOperationIds := oc.2,
    diags := st.diags ++ checkDiags ++ rp.2.2 ++ rb.2.2 ++ rr.2.2 ++ oc.1
      ++ ins.2 }

/-- Modelled from the spec: the path assembler, processing the handler
descriptors in input order from the empty state. -/
def assemble (hs : List HandlerDescriptor) : AssembleState :=
  hs.foldl processHandler ⟨[], [], [], []⟩

/-- Components extracted from the registry: the fully expanded entries, in
insertion order. -/
def componentsOf (reg : Registry) : Components :=
  reg.filterMap (fun e =>
    match e.2.node with
    | some s => some (e.1, s)
    | none => none)

/-- Embedding of the crate's `Modify` trait (`src/lib.rs`): a modifier is a
callback receiving the document by mutable reference and returning unit,
embedded as a total function from document to document — there is no error
channel. -/
structure Modify where
  modify : OpenApi → OpenApi

/-- Modelled from the spec: the modifier runner, applying the callbacks
strictly in registration order, each seeing the cumulative effect of all
prior callbacks, with no deduplication. -/
def applyModifiers (mods : List Modify) (doc : OpenApi) : OpenApi :=
  mods.foldl (fun d m => m.modify d) doc

mutual

/-- Names referenced by `ref` nodes anywhere inside a schema node. -/
def SchemaNode.refNames : SchemaNode → List String
  | .primitive _ _ => []
  | .object props _ => props.refNames
  | .array items => items.refNames
  | .composed _ vs => vs.refNames
  | .enumeration _ => []
  | .ref n => [n]

/-- Names referenced by `ref` nodes inside a property list. -/
def PropList.refNames : PropList → List String
  | .nil => []
  | .cons _ node rest => node.refNames ++ rest.refNames

/-- Names referenced by `ref` nodes inside a node list. -/
def NodeList.refNames : NodeList → List String
  | .nil => []
  | .cons node rest => node.refNames ++ rest.refNames

end

/-- Names referenced by `ref` nodes inside an operation. -/
def Operation.refNames (op : Operation) : List String :=
  (op.parameters.map (fun p => p.schema.refNames)).flatten ++
    (match op.requestBody with
     | none => []
     | some s => s.refNames) ++
    (op.responses.map (fun r =>
      match r.2.content with
      | none => []
      | some s => s.refNames)).flatten

/-- Names referenced by `ref` nodes anywhere in a document. -/
def OpenApi.refNames (doc : OpenApi) : List String :=
  (doc.components.map (fun e => e.2.refNames)).flatten ++
    (doc.paths.map (fun e =>
      (e.2.map (fun me => me.2.refNames)).flatten)).flatten

/-- Names registered in the document's components. -/
def componentNames (doc : OpenApi) : List String :=
  doc.components.map (fun e => e.1)

/-- Modelled from the spec: the final invariant pass run after the modifiers
complete, flagging every `ref` name with no components entry as a dangling
reference. -/
def validate (doc : OpenApi) : List Diagnostic :=
  (doc.refNames.filter (fun n => decide (n ∉ componentNames doc))).map
    Diagnostic.danglingReference

/-- Modelled from the spec: the whole build.  The path assembler produces
paths, components and diagnostics; the modifier runner is applied to the
assembled document; the final invariant pass checks the post-modifier
document for dangling references. -/
def build (info : Info) (hs : List HandlerDescriptor) (mods : List Modify) :
    OpenApi × List Diagnostic :=
  let st := assemble hs
  let doc0 : OpenApi :=
    { info := info, components := componentsOf st.registry, paths := st.paths }
  let doc := applyModifiers mods doc0
  (doc, st.diags ++ validate doc)

theorem alistLookup_append_left {α β : Type} [DecidableEq α]
    {l : List (α × β)} (l2 : List (α × β)) {k : α} {v : β}
    (h : alistLookup l k = some v) :
    alistLookup (l ++ l2) k = some v := by
  induction l with
  | nil => simp [alistLookup] at h
  | cons p rest ih =>
      obtain ⟨k0, v0⟩ := p
      by_cases hk : k0 = k
      · simp [alistLookup, hk] at h ⊢
        exact h
      · simp [alistLookup, hk] at h ⊢
        exact ih h

theorem alistLookup_append_right {α β : Type} [DecidableEq α]
    {l : List (α × β)} (l2 : List (α × β)) {k : α}
    (h : alistLookup l k = none) :
    alistLookup (l ++ l2) k = alistLookup l2 k := by
  induction l with
  | nil => simp
  | cons p rest ih =>
      obtain ⟨k0, v0⟩ := p
      by_cases hk : k0 = k
      · simp [alistLookup, hk] at h
      · simp [alistLookup, hk] at h ⊢
        exact ih h

theorem alistLookup_update_self {α β : Type} [DecidableEq α]
    {l : List (α × β)} {k : α} {v : β} (w : β)
    (h : alistLookup l k = some v) :
    alistLookup (alistUpdate l k w) k = some w := by
  induction l with
  | nil => simp [alistLookup] at h
  | cons p rest ih =>
      obtain ⟨k0, v0⟩ := p
      by_cases hk : k0 = k
      · simp [alistUpdate, alistLookup, hk]
      · simp [alistUpdate, alistLookup, hk] at h ⊢
        exact ih h

theorem alistLookup_update_ne {α β : Type} [DecidableEq α]
    (l : List (α × β)) {k a : α} (w : β) (h : a ≠ k) :
    alistLookup (alistUpdate l a w) k = alistLookup l k := by
  induction l with
  | nil => simp [alistUpdate]
  | cons p rest ih =>
      obtain ⟨k0, v0⟩ := p
      by_cases hk : k0 = a
      · subst hk
        simp [alistUpdate, alistLookup, h]
      · by_cases hk2 : k0 = k
        · simp [alistUpdate, alistLookup, hk, hk2, Ne.symm h]
        · simp [alistUpdate, alistLookup, hk, hk2]
          exact ih

theorem alistUpdate_keys {α β : Type} [DecidableEq α]
    (l : List (α × β)) (a : α) (w : β) :
    (alistUpdate l a w).map Prod.fst = l.map Prod.fst := by
  induction l with
  | nil => simp [alistUpdate]
  | cons p rest ih =>
      obtain ⟨k0, v0⟩ := p
      by_cases hk : k0 = a
      · simp [alistUpdate, hk]
      · simp [alistUpdate, hk]
        exact ih

theorem alistLookup_eq_none_iff {α β : Type} [DecidableEq α]
    (l : List (α × β)) (k : α) :
    alistLookup l k = none ↔ k ∉ l.map Prod.fst := by
  induction l with
  | nil => simp [alistLookup]
  | cons p rest ih =>
      obtain ⟨k0, v0⟩ := p
      by_cases hk : k0 = k
      · subst hk
        simp [alistLookup]
      · simp only [alistLookup, if_neg hk, List.map_cons, List.mem_cons, ih]
        constructor
        · intro hnot hmem
          rcases hmem with h1 | h2
          · exact hk h1.symm
          · exact hnot h2
        · intro hnot hmem
          exact hnot (Or.inr hmem)

mutual

theorem resolve_preserves_entries :
    ∀ (d : TypeDescriptor) (reg : Registry) (k : String) (e : RegEntry),
      alistLookup reg k = some e → alistLookup (resolve d reg).2.1 k = some e
  | .primitive _ _, _, _, _, h => by simpa [resolve] using h
  | .namedRef _, _, _, _, h => by simpa [resolve] using h
  | .array item, reg, k, e, h => by
      have ih := resolve_preserves_entries item reg k e h
      rcases hres : resolve item reg with ⟨s, reg1, ds⟩
      rw [hres] at ih
      simpa [resolve, hres] using ih
  | .enumDesc n variants, reg, k, e, h => by
      rcases hl : alistLookup reg n with _ | e0
      · have hkn : k ≠ n := by
          intro hkn
          subst hkn
          rw [h] at hl
          cases hl
        simp only [resolve, hl]
        rw [alistLookup_update_ne _ _ (Ne.symm hkn)]
        exact alistLookup_append_left _ h
      · by_cases hd : e0.desc = .enumDesc n variants <;> simpa [resolve, hl, hd] using h
  | .obj n fields, reg, k, e, h => by
      rcases hl : alistLookup reg n with _ | e0
      · have hkn : k ≠ n := by
          intro hkn
          subst hkn
          rw [h] at hl
          cases hl
        have h1 : alistLookup (reg ++ [(n, ⟨.obj n fields, none⟩)]) k = some e :=
          alistLookup_append_left _ h
        have ih := resolveFields_preserves_entries fields
          (reg ++ [(n, ⟨.obj n fields, none⟩)]) k e h1
        rcases hres : resolveFields fields (reg ++ [(n, ⟨.obj n fields, none⟩)]) with
          ⟨props, req, reg2, ds⟩
        rw [hres] at ih
        simp only [resolve, hl, hres]
        rw [alistLookup_update_ne _ _ (Ne.symm hkn)]
        exact ih
      · by_cases hd : e0.desc = .obj n fields <;> simpa [resolve, hl, hd] using h

theorem resolveFields_preserves_entries :
    ∀ (fs : FieldList) (reg : Registry) (k : String) (e : RegEntry),
      alistLookup reg k = some e → alistLookup (resolveFields fs reg).2.2.1 k = some e
  | .nil, _, _, _, h => by simpa [resolveFields] using h
  | .cons f d opt rest, reg, k, e, h => by
      have ih1 := resolve_preserves_entries d reg k e h
      rcases hres1 : resolve d reg with ⟨s, reg1, ds1⟩
      rw [hres1] at ih1
      have ih2 := resolveFields_preserves_entries rest reg1 k e ih1
      rcases hres2 : resolveFields rest reg1 with ⟨props, req, reg2, ds2⟩
      rw [hres2] at ih2
      simpa [resolveFields, hres1, hres2] using ih2

end

theorem resolveFields_keys :
    ∀ (fs : FieldList) (reg : Registry),
      (resolveFields fs reg).1.keys = fs.names ∧
      (resolveFields fs reg).2.1 = fs.requiredNames
  | .nil, reg => by
      simp [resolveFields, PropList.keys, FieldList.names, FieldList.requiredNames]
  | .cons f d opt rest, reg => by
      rcases hres1 : resolve d reg with ⟨s, reg1, ds1⟩
      have ih := resolveFields_keys rest reg1
      rcases hres2 : resolveFields rest reg1 with ⟨props, req, reg2, ds2⟩
      rw [hres2] at ih
      simp only [resolveFields, hres1, hres2, PropList.keys, FieldList.names,
        FieldList.requiredNames]
      have ih1 : props.keys = rest.names := ih.1
      have ih2 : req = rest.requiredNames := ih.2
      refine ⟨by simp [PropList.keys, ih1], ?_⟩
      cases opt <;> simp [ih2]

theorem toList_mem_names :
    ∀ (fs : FieldList) (f : String) (d : TypeDescriptor) (o : Bool),
      (f, d, o) ∈ fs.toList → f ∈ fs.names
  | .nil, f, d, o, h => by simp [FieldList.toList] at h
  | .cons g gd go rest, f, d, o, h => by
      rcases List.mem_cons.mp h with heq | hmem
      · have hf : f = g := congrArg Prod.fst heq
        simp [FieldList.names, hf]
      · simp [FieldList.names]
        exact Or.inr (toList_mem_names rest f d o hmem)

theorem requiredNames_subset_names :
    ∀ (fs : FieldList) (x : String), x ∈ fs.requiredNames → x ∈ fs.names
  | .nil, x, h => by simp [FieldList.requiredNames] at h
  | .cons f d opt rest, x, h => by
      cases opt with
      | true =>
          simp only [FieldList.requiredNames, if_pos] at h
          simp [FieldList.names]
          exact Or.inr (requiredNames_subset_names rest x h)
      | false =>
          simp only [FieldList.requiredNames, if_neg] at h
          simp at h
          rcases h with h | h
          · simp [FieldList.names, h]
          · simp [FieldList.names]
            exact Or.inr (requiredNames_subset_names rest x h)

theorem nonoptional_mem_requiredNames :
    ∀ (fs : FieldList) (f : String) (d : TypeDescriptor),
      (f, d, false) ∈ fs.toList → f ∈ fs.requiredNames
  | .nil, f, d, h => by simp [FieldList.toList] at h
  | .cons g gd go rest, f, d, h => by
      rcases List.mem_cons.mp h with heq | hmem
      · have hf : f = g := congrArg Prod.fst heq
        have hgo : false = go := congrArg (fun p => p.2.2) heq
        subst hf
        rw [← hgo]
        simp [FieldList.requiredNames]
      · cases go with
        | true =>
            simp only [FieldList.requiredNames, if_pos]
            exact nonoptional_mem_requiredNames rest f d hmem
        | false =>
            simp only [FieldList.requiredNames, if_neg]
            simp
            exact Or.inr (nonoptional_mem_requiredNames rest f d hmem)

theorem optional_notin_requiredNames :
    ∀ (fs : FieldList) (f : String) (d : TypeDescriptor),
      fs.names.Nodup → (f, d, true) ∈ fs.toList → f ∉ fs.requiredNames
  | .nil, f, d, _, h => by simp [FieldList.toList] at h
  | .cons g gd go rest, f, d, hnodup, hmem => by
      have hnames : (FieldList.cons g gd go rest).names = g :: rest.names := rfl
      rw [hnames, List.nodup_cons] at hnodup
      rcases List.mem_cons.mp hmem with heq | hmem2
      · have hf : f = g := congrArg Prod.fst heq
        have hgo : true = go := congrArg (fun p => p.2.2) heq
        subst hf
        rw [← hgo]
        simp only [FieldList.requiredNames, if_pos]
        intro hcontra
        exact hnodup.1 (requiredNames_subset_names rest f hcontra)
      · have hfmem : f ∈ rest.names := toList_mem_names rest f d true hmem2
        have hfg : f ≠ g := by
          intro hfg
          subst hfg
          exact hnodup.1 hfmem
        cases go with
        | true =>
            simp only [FieldList.requiredNames, if_pos]
            exact optional_notin_requiredNames rest f d hnodup.2 hmem2
        | false =>
            simp only [FieldList.requiredNames, if_neg]
            simp [not_or]
            exact ⟨hfg, optional_notin_requiredNames rest f d hnodup.2 hmem2⟩

theorem resolve_obj_registers (n : String) (fs : FieldList) (reg : Registry)
    (hfresh : alistLookup reg n = none) :
    alistLookup (resolve (.obj n fs) reg).2.1 n =
      some ⟨.obj n fs,
        some (.object (resolveFields fs (reg ++ [(n, ⟨.obj n fs, none⟩)])).1
          (resolveFields fs (reg ++ [(n, ⟨.obj n fs, none⟩)])).2.1)⟩ := by
  have hplace : alistLookup (reg ++ [(n, ⟨.obj n fs, none⟩)]) n =
      some ⟨.obj n fs, none⟩ := by
    rw [alistLookup_append_right _ hfresh]
    simp [alistLookup]
  have hkept := resolveFields_preserves_entries fs
    (reg ++ [(n, ⟨.obj n fs, none⟩)]) n _ hplace
  rcases hres : resolveFields fs (reg ++ [(n, ⟨.obj n fs, none⟩)]) with
    ⟨props, req, reg2, ds⟩
  rw [hres] at hkept
  simp only [resolve, hfresh, hres]
  exact alistLookup_update_self _ hkept

/-- Test for a schema name conflict diagnostic. -/
def Diagnostic.isSchemaConflict : Diagnostic → Bool
  | .schemaNameConflict _ _ _ => true
  | _ => false

/-- Test for a dangling reference diagnostic. -/
def Diagnostic.isDanglingKind : Diagnostic → Bool
  | .danglingReference _ => true
  | _ => false

/-- Test for a duplicate route diagnostic on a given (template, method)
pair. -/
def Diagnostic.isDupRoute (t : String) (m : PathItemType) : Diagnostic → Bool
  | .duplicateRoute t2 m2 => decide (t2 = t ∧ m2 = m)
  | _ => false

mutual

theorem resolve_diags_conflict :
    ∀ (d : TypeDescriptor) (reg : Registry) (x : Diagnostic),
      x ∈ (resolve d reg).2.2 → x.isSchemaConflict = true
  | .primitive _ _, reg, x, h => by simp [resolve] at h
  | .namedRef _, reg, x, h => by simp [resolve] at h
  | .array item, reg, x, h => by
      have ih := resolve_diags_conflict item reg x
      rcases hres : resolve item reg with ⟨s, reg1, ds⟩
      rw [hres] at ih
      simp only [resolve, hres] at h
      exact ih h
  | .enumDesc n variants, reg, x, h => by
      rcases hl : alistLookup reg n with _ | e0
      · simp [resolve, hl] at h
      · by_cases hd : e0.desc = .enumDesc n variants
        · simp [resolve, hl, hd] at h
        · simp [resolve, hl, hd] at h
          subst h
          rfl
  | .obj n fields, reg, x, h => by
      rcases hl : alistLookup reg n with _ | e0
      · have ih := resolveFields_diags_conflict fields
          (reg ++ [(n, ⟨.obj n fields, none⟩)]) x
        rcases hres : resolveFields fields (reg ++ [(n, ⟨.obj n fields, none⟩)]) with
          ⟨props, req, reg2, ds⟩
        rw [hres] at ih
        simp only [resolve, hl, hres] at h
        exact ih h
      · by_cases hd : e0.desc = .obj n fields
        · simp [resolve, hl, hd] at h
        · simp [resolve, hl, hd] at h
          subst h
          rfl

theorem resolveFields_diags_conflict :
    ∀ (fs : FieldList) (reg : Registry) (x : Diagnostic),
      x ∈ (resolveFields fs reg).2.2.2 → x.isSchemaConflict = true
  | .nil, reg, x, h => by simp [resolveFields] at h
  | .cons f d opt rest, reg, x, h => by
      have ih1 := resolve_diags_conflict d reg x
      rcases hres1 : resolve d reg with ⟨s, reg1, ds1⟩
      rw [hres1] at ih1
      have ih2 := resolveFields_diags_conflict rest reg1 x
      rcases hres2 : resolveFields rest reg1 with ⟨props, req, reg2, ds2⟩
      rw [hres2] at ih2
      simp only [resolveFields, hres1, hres2, List.mem_append] at h
      rcases h with h | h
      · exact ih1 h
      · exact ih2 h

end

theorem resolveParams_diags_conflict :
    ∀ (ps : List ParameterDescriptor) (reg : Registry) (x : Diagnostic),
      x ∈ (resolveParams ps reg).2.2 → x.isSchemaConflict = true := by
  intro ps
  induction ps with
  | nil => intro reg x h; simp [resolveParams] at h
  | cons p rest ih =>
      intro reg x h
      have h1 := resolve_diags_conflict p.schema reg x
      rcases hres1 : resolve p.schema reg with ⟨s, reg1, ds1⟩
      rw [hres1] at h1
      have h2 := ih reg1 x
      rcases hres2 : resolveParams rest reg1 with ⟨ps1, reg2, ds2⟩
      rw [hres2] at h2
      simp only [resolveParams, hres1, hres2, List.mem_append] at h
      rcases h with h | h
      · exact h1 h
      · exact h2 h

theorem resolveOptionalBody_diags_conflict
    (b : Option TypeDescriptor) (reg : Registry) (x : Diagnostic)
    (h : x ∈ (resolveOptionalBody b reg).2.2) : x.isSchemaConflict = true := by
  cases b with
  | none => simp [resolveOptionalBody] at h
  | some d =>
      have h1 := resolve_diags_conflict d reg x
      rcases hres : resolve d reg with ⟨s, reg1, ds⟩
      rw [hres] at h1
      simp only [resolveOptionalBody, hres] at h
      exact h1 h

theorem resolveResponses_diags_conflict :
    ∀ (rs : List ResponseDescriptor) (reg : Registry) (x : Diagnostic),
      x ∈ (resolveResponses rs reg).2.2 → x.isSchemaConflict = true := by
  intro rs
  induction rs with
  | nil => intro reg x h; simp [resolveResponses] at h
  | cons r rest ih =>
      intro reg x h
      have h1 := resolveOptionalBody_diags_conflict r.body reg x
      rcases hres1 : resolveOptionalBody r.body reg with ⟨c, reg1, ds1⟩
      rw [hres1] at h1
      have h2 := ih reg1 x
      rcases hres2 : resolveResponses rest reg1 with ⟨rs1, reg2, ds2⟩
      rw [hres2] at h2
      simp only [resolveResponses, hres1, hres2, List.mem_append] at h
      rcases h with h | h
      · exact h1 h
      · exact h2 h

theorem crossCheckDiags_shapes (tpl : String) (ps : List ParameterDescriptor)
    (x : Diagnostic) (h : x ∈ crossCheckDiags tpl ps) :
    (∃ n, x = .unboundPathParameter tpl n) ∨
      (∃ n, x = .unusedDeclaredParameter tpl n) := by
  simp only [crossCheckDiags, List.mem_append, List.mem_map] at h
  rcases h with ⟨n, _, rfl⟩ | ⟨n, _, rfl⟩
  · exact Or.inl ⟨n, rfl⟩
  · exact Or.inr ⟨n, rfl⟩

theorem validate_diags_dangling (doc : OpenApi) (x : Diagnostic)
    (h : x ∈ validate doc) : x.isDanglingKind = true := by
  simp only [validate, List.mem_map] at h
  rcases h with ⟨n, _, rfl⟩
  rfl

theorem alistLookup_mem_keys_of_some {α β : Type} [DecidableEq α]
    {l : List (α × β)} {k : α} {v : β} (h : alistLookup l k = some v) :
    k ∈ l.map Prod.fst := by
  by_contra hmem
  rw [(alistLookup_eq_none_iff l k).mpr hmem] at h
  cases h

theorem alistLookup_append_single_ne {α β : Type} [DecidableEq α]
    (l : List (α × β)) {a k : α} (b : β) (h : a ≠ k) :
    alistLookup (l ++ [(a, b)]) k = alistLookup l k := by
  rcases hl : alistLookup l k with _ | v
  · rw [alistLookup_append_right _ hl]
    simp [alistLookup, h]
  · exact alistLookup_append_left _ hl

/-- Methods registered for a template, in insertion order. -/
def methodKeys (paths : Paths) (t : String) : List PathItemType :=
  match alistLookup paths t with
  | none => []
  | some item => item.map Prod.fst

theorem insertOperation_occupied (paths : Paths) (t : String) (m : PathItemType)
    (op op0 : Operation) (h : operationAt paths t m = some op0) :
    insertOperation paths t m op = (paths, [.duplicateRoute t m]) := by
  rcases hl : alistLookup paths t with _ | item
  · simp [operationAt, hl] at h
  · simp only [operationAt, hl] at h
    simp [insertOperation, hl, h]

theorem insertOperation_occupies (paths : Paths) (t : String) (m : PathItemType)
    (op : Operation) :
    operationAt (insertOperation paths t m op).1 t m = some op ∨
      ∃ op0, operationAt paths t m = some op0 ∧
        operationAt (insertOperation paths t m op).1 t m = some op0 := by
  rcases hl : alistLookup paths t with _ | item
  · left
    simp only [insertOperation, hl, operationAt]
    rw [alistLookup_append_right _ hl]
    simp [alistLookup]
  · rcases hm : alistLookup item m with _ | op0
    · left
      simp only [insertOperation, hl, hm, operationAt]
      rw [alistLookup_update_self _ hl]
      show alistLookup (item ++ [(m, op)]) m = some op
      rw [alistLookup_append_right _ hm]
      simp [alistLookup]
    · right
      exact ⟨op0, by simp [operationAt, hl, hm], by simp [insertOperation, operationAt, hl, hm]⟩

theorem insertOperation_template_keys (paths : Paths) (t : String)
    (m : PathItemType) (op : Operation) :
    (insertOperation paths t m op).1.map Prod.fst =
      if t ∈ paths.map Prod.fst then paths.map Prod.fst
      else paths.map Prod.fst ++ [t] := by
  rcases hl : alistLookup paths t with _ | item
  · rw [if_neg ((alistLookup_eq_none_iff paths t).mp hl)]
    simp [insertOperation, hl]
  · rw [if_pos (alistLookup_mem_keys_of_some hl)]
    rcases hm : alistLookup item m with _ | op0
    · simp [insertOperation, hl, hm, alistUpdate_keys]
    · simp [insertOperation, hl, hm]

theorem insertOperation_method_keys (paths : Paths) (t : String)
    (m : PathItemType) (op : Operation) (t2 : String) :
    methodKeys (insertOperation paths t m op).1 t2 =
      if t = t2 then
        (if m ∈ methodKeys paths t2 then methodKeys paths t2
         else methodKeys paths t2 ++ [m])
      else methodKeys paths t2 := by
  by_cases ht : t = t2
  · subst ht
    rw [if_pos rfl]
    rcases hl : alistLookup paths t with _ | item
    · have hempty : methodKeys paths t = [] := by simp [methodKeys, hl]
      rw [hempty]
      simp only [insertOperation, hl, methodKeys, List.not_mem_nil, if_neg]
      rw [alistLookup_append_right _ hl]
      simp [alistLookup]
    · have hitem : methodKeys paths t = item.map Prod.fst := by simp [methodKeys, hl]
      rw [hitem]
      rcases hm : alistLookup item m with _ | op0
      · rw [if_neg ((alistLookup_eq_none_iff item m).mp hm)]
        simp only [insertOperation, hl, hm, methodKeys]
        rw [alistLookup_update_self _ hl]
        simp
      · rw [if_pos (alistLookup_mem_keys_of_some hm)]
        simp [insertOperation, hl, hm, methodKeys]
  · rw [if_neg ht]
    rcases hl : alistLookup paths t with _ | item
    · simp only [insertOperation, hl, methodKeys]
      rw [alistLookup_append_single_ne _ _ ht]
    · rcases hm : alistLookup item m with _ | op0
      · simp only [insertOperation, hl, hm, methodKeys]
        rw [alistLookup_update_ne _ _ ht]
      · simp [insertOperation, hl, hm, methodKeys]

theorem insertOperation_isSome (paths : Paths) (t : String) (m : PathItemType)
    (op : Operation) :
    (operationAt (insertOperation paths t m op).1 t m).isSome = true := by
  rcases insertOperation_occupies paths t m op with hc | ⟨op0, _, hc⟩ <;> simp [hc]

theorem processHandler_diags_eq (st : AssembleState) (h : HandlerDescriptor) :
    (processHandler st h).diags =
      st.diags ++ crossCheckDiags h.path h.params
        ++ (resolveParams h.params st.registry).2.2
        ++ (resolveOptionalBody h.requestBody
              (resolveParams h.params st.registry).2.1).2.2
        ++ (resolveResponses h.responses
              (resolveOptionalBody h.requestBody
                (resolveParams h.params st.registry).2.1).2.1).2.2
        ++ (opIdCheck st.seenOperationIds h.operationId).1
        ++ (insertOperation st.paths h.path h.method
              (mkOperation h (resolveParams h.params st.registry).1
                (resolveOptionalBody h.requestBody
                  (resolveParams h.params st.registry).2.1).1
                (resolveResponses h.responses
                  (resolveOptionalBody h.requestBody
                    (resolveParams h.params st.registry).2.1).2.1).1)).2 := rfl

theorem processHandler_paths_eq (st : AssembleState) (h : HandlerDescriptor) :
    (processHandler st h).paths =
      (insertOperation st.paths h.path h.method
        (mkOperation h (resolveParams h.params st.registry).1
          (resolveOptionalBody h.requestBody
            (resolveParams h.params st.registry).2.1).1
          (resolveResponses h.responses
            (resolveOptionalBody h.requestBody
              (resolveParams h.params st.registry).2.1).2.1).1)).1 := rfl

theorem processHandler_template_keys (st : AssembleState) (h : HandlerDescriptor) :
    (processHandler st h).paths.map Prod.fst =
      if h.path ∈ st.paths.map Prod.fst then st.paths.map Prod.fst
      else st.paths.map Prod.fst ++ [h.path] := by
  rw [processHandler_paths_eq]
  exact insertOperation_template_keys _ _ _ _

theorem processHandler_method_keys (st : AssembleState) (h : HandlerDescriptor)
    (t : String) :
    methodKeys (processHandler st h).paths t =
      if h.path = t then
        (if h.method ∈ methodKeys st.paths t then methodKeys st.paths t
         else methodKeys st.paths t ++ [h.method])
      else methodKeys st.paths t := by
  rw [processHandler_paths_eq]
  exact insertOperation_method_keys _ _ _ _ _

theorem processHandler_operationAt_isSome (st : AssembleState)
    (h : HandlerDescriptor) :
    (operationAt (processHandler st h).paths h.path h.method).isSome = true := by
  rw [processHandler_paths_eq]
  exact insertOperation_isSome _ _ _ _

theorem processHandler_paths_of_occupied (st : AssembleState)
    (h : HandlerDescriptor) (op0 : Operation)
    (hocc : operationAt st.paths h.path h.method = some op0) :
    (processHandler st h).paths = st.paths := by
  rw [processHandler_paths_eq, insertOperation_occupied _ _ _ _ _ hocc]

theorem processHandler_diags_of_occupied (st : AssembleState)
    (h : HandlerDescriptor) (op0 : Operation)
    (hocc : operationAt st.paths h.path h.method = some op0) :
    (processHandler st h).diags =
      st.diags ++ crossCheckDiags h.path h.params
        ++ (resolveParams h.params st.registry).2.2
        ++ (resolveOptionalBody h.requestBody
              (resolveParams h.params st.registry).2.1).2.2
        ++ (resolveResponses h.responses
              (resolveOptionalBody h.requestBody
                (resolveParams h.params st.registry).2.1).2.1).2.2
        ++ (opIdCheck st.seenOperationIds h.operationId).1
        ++ [.duplicateRoute h.path h.method] := by
  rw [processHandler_diags_eq, insertOperation_occupied _ _ _ _ _ hocc]

/-- Count of duplicate route diagnostics for one (template, method) pair. -/
def dupRouteCount (ds : List Diagnostic) (t : String) (m : PathItemType) : Nat :=
  ds.countP (Diagnostic.isDupRoute t m)

theorem isDupRoute_false_of_conflict (t : String) (m : PathItemType)
    (x : Diagnostic) (hx : x.isSchemaConflict = true) :
    Diagnostic.isDupRoute t m x = false := by
  cases x <;> first | rfl | simp [Diagnostic.isSchemaConflict] at hx

theorem crossCheckDiags_no_dupRoute (tpl : String) (ps : List ParameterDescriptor)
    (t : String) (m : PathItemType) (x : Diagnostic)
    (hx : x ∈ crossCheckDiags tpl ps) : Diagnostic.isDupRoute t m x = false := by
  rcases crossCheckDiags_shapes tpl ps x hx with ⟨n, rfl⟩ | ⟨n, rfl⟩ <;> rfl

theorem opIdCheck_no_dupRoute (seen : List String) (oid : Option String)
    (t : String) (m : PathItemType) (x : Diagnostic)
    (hx : x ∈ (opIdCheck seen oid).1) : Diagnostic.isDupRoute t m x = false := by
  cases oid with
  | none => simp [opIdCheck] at hx
  | some i =>
      by_cases hmem : i ∈ seen
      · simp [opIdCheck, hmem] at hx
        subst hx
        rfl
      · simp [opIdCheck, hmem] at hx

/-- Path templates in the order each template is first seen in the handler
sequence. -/
def firstSeenTemplates (hs : List HandlerDescriptor) : List String :=
  hs.foldl (fun acc h => if h.path ∈ acc then acc else acc ++ [h.path]) []

/-- Methods of one template in the order each method is first seen among the
handlers bound to that template. -/
def firstSeenMethods (hs : List HandlerDescriptor) (t : String) :
    List PathItemType :=
  hs.foldl
    (fun acc h =>
      if h.path = t then
        (if h.method ∈ acc then acc else acc ++ [h.method])
      else acc)
    []

theorem foldl_template_keys (hs : List HandlerDescriptor) :
    ∀ st : AssembleState,
      (hs.foldl processHandler st).paths.map Prod.fst =
        hs.foldl (fun acc h => if h.path ∈ acc then acc else acc ++ [h.path])
          (st.paths.map Prod.fst) := by
  induction hs with
  | nil => intro st; rfl
  | cons h rest ih =>
      intro st
      simp only [List.foldl_cons]
      rw [ih, processHandler_template_keys]

theorem foldl_method_keys (hs : List HandlerDescriptor) (t : String) :
    ∀ st : AssembleState,
      methodKeys (hs.foldl processHandler st).paths t =
        hs.foldl
          (fun acc h =>
            if h.path = t then
              (if h.method ∈ acc then acc else acc ++ [h.method])
            else acc)
          (methodKeys st.paths t) := by
  induction hs with
  | nil => intro st; rfl
  | cons h rest ih =>
      intro st
      simp only [List.foldl_cons]
      rw [ih, processHandler_method_keys]

theorem assemble_append_one (hs : List HandlerDescriptor)
    (h : HandlerDescriptor) :
    assemble (hs ++ [h]) = processHandler (assemble hs) h := by
  simp [assemble, List.foldl_append]

theorem mem_crossCheckDiags_unbound (tpl : String)
    (ps : List ParameterDescriptor) (p : String)
    (hp : p ∈ extractPlaceholders tpl) (hnot : p ∉ pathParamNames ps) :
    Diagnostic.unboundPathParameter tpl p ∈ crossCheckDiags tpl ps := by
  simp only [crossCheckDiags, List.mem_append]
  left
  exact List.mem_map_of_mem _ (List.mem_filter.mpr ⟨hp, by simp [hnot]⟩)

theorem mem_crossCheckDiags_unused (tpl : String)
    (ps : List ParameterDescriptor) (q : String)
    (hq : q ∈ pathParamNames ps) (hnot : q ∉ extractPlaceholders tpl) :
    Diagnostic.unusedDeclaredParameter tpl q ∈ crossCheckDiags tpl ps := by
  simp only [crossCheckDiags, List.mem_append]
  right
  exact List.mem_map_of_mem _ (List.mem_filter.mpr ⟨hq, by simp [hnot]⟩)

/-- C1: the schema resolver is total — it terminates on every type
descriptor graph — and on the spec's self-referential `Node` descriptor it
produces a registry with exactly one `Node` entry whose `children` property
is `Array(Ref "Node")`, not an inline re-expansion; the resolved occurrence
of the recursion is the reference `Ref "Node"`. -/
theorem resolve_terminates_and_breaks_cycles :
    (∀ (d : TypeDescriptor) (reg : Registry), ∃ out, resolve d reg = out) ∧
    resolve nodeDesc [] =
      (.ref "Node",
       [("Node",
         ⟨nodeDesc,
          some (.object (.cons "children" (.array (.ref "Node")) .nil)
            ["children"])⟩)],
       []) :=
  ⟨fun d reg => ⟨resolve d reg, rfl⟩, by decide⟩

/-- C2: when the build returns a document whose diagnostics contain no
dangling-reference diagnostic, every `ref` name reachable anywhere in the
document has a components entry keyed by that name. -/
theorem no_dangling_refs_when_not_flagged (info : Info)
    (hs : List HandlerDescriptor) (mods : List Modify) (n : String)
    (hclean : ∀ x ∈ (build info hs mods).2, x.isDanglingKind = false)
    (hocc : n ∈ (build info hs mods).1.refNames) :
    n ∈ componentNames (build info hs mods).1 := by
  by_contra hnot
  have hdang : Diagnostic.danglingReference n ∈ validate (build info hs mods).1 := by
    simp only [validate, List.mem_map]
    exact ⟨n, List.mem_filter.mpr ⟨hocc, by simp [hnot]⟩, rfl⟩
  have hmem : Diagnostic.danglingReference n ∈ (build info hs mods).2 := by
    have hsplit : (build info hs mods).2 =
        (assemble hs).diags ++ validate (build info hs mods).1 := rfl
    rw [hsplit]
    exact List.mem_append_right _ hdang
  have hfalse := hclean _ hmem
  simp [Diagnostic.isDanglingKind] at hfalse

/-- Name carried by a named type descriptor (an object or an enum), `none`
for the structural descriptors. -/
def TypeDescriptor.nameOf : TypeDescriptor → Option String
  | .obj n _ => some n
  | .enumDesc n _ => some n
  | _ => none

theorem resolve_enum_registers (n : String) (vs : List String) (reg : Registry)
    (hfresh : alistLookup reg n = none) :
    alistLookup (resolve (.enumDesc n vs) reg).2.1 n =
      some ⟨.enumDesc n vs, some (.enumeration vs)⟩ := by
  have hplace : alistLookup (reg ++ [(n, ⟨.enumDesc n vs, none⟩)]) n =
      some ⟨.enumDesc n vs, none⟩ := by
    rw [alistLookup_append_right _ hfresh]
    simp [alistLookup]
  simp only [resolve, hfresh]
  exact alistLookup_update_self _ hplace

theorem resolve_named_registers (n : String) (d : TypeDescriptor)
    (reg : Registry) (hname : d.nameOf = some n)
    (hfresh : alistLookup reg n = none) :
    ∃ s, alistLookup (resolve d reg).2.1 n = some ⟨d, some s⟩ := by
  cases d with
  | obj n2 fs =>
      have hn : n2 = n := by simpa [TypeDescriptor.nameOf] using hname
      subst hn
      exact ⟨_, resolve_obj_registers n2 fs reg hfresh⟩
  | enumDesc n2 vs =>
      have hn : n2 = n := by simpa [TypeDescriptor.nameOf] using hname
      subst hn
      exact ⟨_, resolve_enum_registers n2 vs reg hfresh⟩
  | primitive k f => simp [TypeDescriptor.nameOf] at hname
  | array item => simp [TypeDescriptor.nameOf] at hname
  | namedRef n2 => simp [TypeDescriptor.nameOf] at hname

theorem resolve_named_conflict (n : String) (d2 : TypeDescriptor)
    (R1 : Registry) (e : RegEntry) (hname : d2.nameOf = some n)
    (hlook : alistLookup R1 n = some e) (hne : ¬ e.desc = d2) :
    resolve d2 R1 = (.ref n, R1, [.schemaNameConflict n e.desc d2]) := by
  cases d2 with
  | obj n2 fs =>
      have hn : n2 = n := by simpa [TypeDescriptor.nameOf] using hname
      subst hn
      simp only [resolve, hlook, if_neg hne]
  | enumDesc n2 vs =>
      have hn : n2 = n := by simpa [TypeDescriptor.nameOf] using hname
      subst hn
      simp only [resolve, hlook, if_neg hne]
  | primitive k f => simp [TypeDescriptor.nameOf] at hname
  | array item => simp [TypeDescriptor.nameOf] at hname
  | namedRef n2 => simp [TypeDescriptor.nameOf] at hname

/-- C3: resolving two distinct same-named type descriptors (objects or
enums, in any combination) with different structural definitions, the first
resolving cleanly from a registry in which the name is fresh, yields exactly
one schema name conflict diagnostic identifying both shapes, leaves the
registry untouched by the second resolution, and keeps the first-seen
definition registered — fully expanded — under the name. -/
theorem schema_name_conflict_keeps_first (n : String)
    (d1 d2 : TypeDescriptor) (reg : Registry)
    (hname1 : d1.nameOf = some n) (hname2 : d2.nameOf = some n)
    (hfresh : alistLookup reg n = none) (hne : d1 ≠ d2)
    (hclean : (resolve d1 reg).2.2 = []) :
    (resolve d1 reg).2.2 ++ (resolve d2 (resolve d1 reg).2.1).2.2 =
      [.schemaNameConflict n d1 d2] ∧
    (resolve d2 (resolve d1 reg).2.1).2.1 = (resolve d1 reg).2.1 ∧
    ∃ s, alistLookup (resolve d1 reg).2.1 n = some ⟨d1, some s⟩ := by
  obtain ⟨s, hreg⟩ := resolve_named_registers n d1 reg hname1 hfresh
  have hned : ¬ (RegEntry.desc ⟨d1, some s⟩ = d2) := by
    simpa using hne
  have hconf := resolve_named_conflict n d2 _ _ hname2 hreg hned
  refine ⟨?_, ?_, ⟨s, hreg⟩⟩
  · rw [hclean, List.nil_append, hconf]
  · rw [hconf]

/-- C4: appending to any handler sequence a handler whose (template, method)
pair is already occupied leaves the operation registered at that pair
unchanged (the first-registered operation stays) and increases the count of
duplicate route diagnostics for that pair by exactly one. -/
theorem duplicate_route_keeps_first (hs : List HandlerDescriptor)
    (h2 : HandlerDescriptor) (op0 : Operation)
    (hocc : operationAt (assemble hs).paths h2.path h2.method = some op0) :
    operationAt (assemble (hs ++ [h2])).paths h2.path h2.method = some op0 ∧
      dupRouteCount (assemble (hs ++ [h2])).diags h2.path h2.method =
        dupRouteCount (assemble hs).diags h2.path h2.method + 1 := by
  rw [assemble_append_one]
  constructor
  · rw [processHandler_paths_of_occupied _ _ _ hocc]
    exact hocc
  · rw [processHandler_diags_of_occupied _ _ _ hocc]
    simp only [dupRouteCount, List.countP_append]
    have hcc : (crossCheckDiags h2.path h2.params).countP
        (Diagnostic.isDupRoute h2.path h2.method) = 0 :=
      List.countP_eq_zero.mpr (fun x hx => by
        simp [crossCheckDiags_no_dupRoute _ _ _ _ x hx])
    have hp : ((resolveParams h2.params (assemble hs).registry).2.2).countP
        (Diagnostic.isDupRoute h2.path h2.method) = 0 :=
      List.countP_eq_zero.mpr (fun x hx => by
        simp [isDupRoute_false_of_conflict _ _ x
          (resolveParams_diags_conflict _ _ x hx)])
    have hb : ((resolveOptionalBody h2.requestBody
        (resolveParams h2.params (assemble hs).registry).2.1).2.2).countP
        (Diagnostic.isDupRoute h2.path h2.method) = 0 :=
      List.countP_eq_zero.mpr (fun x hx => by
        simp [isDupRoute_false_of_conflict _ _ x
          (resolveOptionalBody_diags_conflict _ _ x hx)])
    have hr : ((resolveResponses h2.responses
        (resolveOptionalBody h2.requestBody
          (resolveParams h2.params (assemble hs).registry).2.1).2.1).2.2).countP
        (Diagnostic.isDupRoute h2.path h2.method) = 0 :=
      List.countP_eq_zero.mpr (fun x hx => by
        simp [isDupRoute_false_of_conflict _ _ x
          (resolveResponses_diags_conflict _ _ x hx)])
    have ho : ((opIdCheck (assemble hs).seenOperationIds h2.operationId).1).countP
        (Diagnostic.isDupRoute h2.path h2.method) = 0 :=
      List.countP_eq_zero.mpr (fun x hx => by
        simp [opIdCheck_no_dupRoute _ _ _ _ x hx])
    have hone : ([Diagnostic.duplicateRoute h2.path h2.method]).countP
        (Diagnostic.isDupRoute h2.path h2.method) = 1 := by
      simp [Diagnostic.isDupRoute]
    rw [hcc, hp, hb, hr, ho, hone]

/-- C5: for every handler in every assembler state, each placeholder of the
path template with no matching declared path-location parameter yields an
unbound path parameter diagnostic, each declared path-location parameter
with no matching placeholder yields an unused declared parameter
diagnostic, and the handler's operation is still emitted — the (template,
method) slot holds an operation after processing. -/
theorem path_param_mismatch_best_effort (st : AssembleState)
    (h : HandlerDescriptor) :
    (∀ p ∈ extractPlaceholders h.path, p ∉ pathParamNames h.params →
        Diagnostic.unboundPathParameter h.path p ∈ (processHandler st h).diags) ∧
    (∀ q ∈ pathParamNames h.params, q ∉ extractPlaceholders h.path →
        Diagnostic.unusedDeclaredParameter h.path q ∈ (processHandler st h).diags) ∧
    (operationAt (processHandler st h).paths h.path h.method).isSome = true := by
  refine ⟨?_, ?_, processHandler_operationAt_isSome st h⟩
  · intro p hp hnot
    rw [processHandler_diags_eq]
    simp only [List.mem_append]
    exact Or.inl (Or.inl (Or.inl (Or.inl (Or.inl (Or.inr
      (mem_crossCheckDiags_unbound h.path h.params p hp hnot))))))
  · intro q hq hnot
    rw [processHandler_diags_eq]
    simp only [List.mem_append]
    exact Or.inl (Or.inl (Or.inl (Or.inl (Or.inl (Or.inr
      (mem_crossCheckDiags_unused h.path h.params q hq hnot))))))

/-- C6: resolving an object descriptor whose name is fresh registers under
that name an object schema node in which the property keys are exactly the
descriptor's field names in order, every non-optional field's name is in the
required set, and (given distinct field names) every optional field's name
is absent from the required set. -/
theorem object_fields_properties_and_required (n : String) (fs : FieldList)
    (reg : Registry) (hfresh : alistLookup reg n = none)
    (hnodup : fs.names.Nodup) :
    ∃ props req,
      alistLookup (resolve (.obj n fs) reg).2.1 n =
        some ⟨.obj n fs, some (.object props req)⟩ ∧
      props.keys = fs.names ∧
      (∀ f d, (f, d, false) ∈ fs.toList → f ∈ req) ∧
      (∀ f d, (f, d, true) ∈ fs.toList → f ∉ req) := by
  refine ⟨_, _, resolve_obj_registers n fs reg hfresh, ?_, ?_, ?_⟩
  · exact (resolveFields_keys fs _).1
  · intro f d hmem
    rw [(resolveFields_keys fs _).2]
    exact nonoptional_mem_requiredNames fs f d hmem
  · intro f d hmem
    rw [(resolveFields_keys fs _).2]
    exact optional_notin_requiredNames fs f d hnodup hmem

/-- C7: the build is a pure, deterministic function of its inputs — two runs
on equal inputs produce equal outputs (the same document and the same
diagnostics), with no dependence on any external state. -/
theorem build_is_deterministic (info1 info2 : Info)
    (hs1 hs2 : List HandlerDescriptor) (ms1 ms2 : List Modify)
    (hinfo : info1 = info2) (hhs : hs1 = hs2) (hms : ms1 = ms2) :
    build info1 hs1 ms1 = build info2 hs2 ms2 := by
  subst hinfo
  subst hhs
  subst hms
  rfl

/-- C8: the emitted document preserves insertion order verbatim — resolved
object property keys equal the descriptor's field names in order, the paths
list the templates in first-seen order, and within a path item the methods
appear in first-insertion order. -/
theorem output_preserves_insertion_order :
    (∀ (fs : FieldList) (reg : Registry),
        (resolveFields fs reg).1.keys = fs.names) ∧
    (∀ hs : List HandlerDescriptor,
        (assemble hs).paths.map Prod.fst = firstSeenTemplates hs) ∧
    (∀ (hs : List HandlerDescriptor) (t : String),
        methodKeys (assemble hs).paths t = firstSeenMethods hs t) := by
  refine ⟨fun fs reg => (resolveFields_keys fs reg).1, fun hs => ?_, fun hs t => ?_⟩
  · have hfold := foldl_template_keys hs ⟨[], [], [], []⟩
    simpa [assemble, firstSeenTemplates] using hfold
  · have hfold := foldl_method_keys hs t ⟨[], [], [], []⟩
    simpa [assemble, firstSeenMethods, methodKeys, alistLookup] using hfold

/-- C9: the modifier runner applies the callbacks strictly in registration
order — running a cons runs its head first, running a concatenation runs the
first list before the second on the cumulative result — and performs no
deduplication: registering the same modifier twice applies it twice. -/
theorem modifier_runner_applies_in_order :
    (∀ (m : Modify) (ms : List Modify) (doc : OpenApi),
        applyModifiers (m :: ms) doc = applyModifiers ms (m.modify doc)) ∧
    (∀ (ms1 ms2 : List Modify) (doc : OpenApi),
        applyModifiers (ms1 ++ ms2) doc =
          applyModifiers ms2 (applyModifiers ms1 doc)) ∧
    (∀ (m : Modify) (doc : OpenApi),
        applyModifiers [m, m] doc = m.modify (m.modify doc)) := by
  refine ⟨fun m ms doc => rfl, fun ms1 ms2 doc => ?_, fun m doc => rfl⟩
  simp [applyModifiers, List.foldl_append]

/-- C10: a modifier callback has no error channel — the final document is
exactly the modifiers applied in order to the assembled document, and the
non-validation diagnostics of the build are identical with and without
modifiers, so a callback can neither abort the build nor report a failure;
an inconsistency it introduces can surface only through the validation pass
run after all modifiers complete. -/
theorem modify_has_no_error_channel :
    (∀ (info : Info) (hs : List HandlerDescriptor) (ms : List Modify),
        (build info hs ms).1 = applyModifiers ms (build info hs []).1) ∧
    (∀ (info : Info) (hs : List HandlerDescriptor) (ms : List Modify),
        ((build info hs ms).2.filter (fun x => !x.isDanglingKind)) =
          ((build info hs []).2.filter (fun x => !x.isDanglingKind))) := by
  constructor
  · intro info hs ms
    rfl
  · intro info hs ms
    have hfil : ∀ doc : OpenApi,
        (validate doc).filter (fun x => !x.isDanglingKind) = [] := by
      intro doc
      rw [List.filter_eq_nil_iff]
      intro x hx
      simp [validate_diags_dangling doc x hx]
    have h1 : (build info hs ms).2 =
        (assemble hs).diags ++ validate (build info hs ms).1 := rfl
    have h2 : (build info hs []).2 =
        (assemble hs).diags ++ validate (build info hs []).1 := rfl
    rw [h1, h2, List.filter_append, List.filter_append, hfil, hfil]

/-- Fields of the `Pet` example shape of the crate documentation: a required
integer `id`, a required string `name`, an optional integer `age`. -/
def petFields : FieldList :=
  .cons "id" (.primitive "integer" (some "int64")) false
    (.cons "name" (.primitive "string" none) false
      (.cons "age" (.primitive "integer" (some "int32")) true .nil))

/-- The `Pet` descriptor. -/
def petDesc : TypeDescriptor := .obj "Pet" petFields

/-- A structurally different shape also named `Pet`. -/
def petFields2 : FieldList :=
  .cons "id" (.primitive "integer" (some "int64")) false
    (.cons "tag" (.primitive "string" none) true .nil)

/-- Minimal application metadata. -/
def someInfo : Info :=
  { title := "application name", version := "0.1.0", description := none }

/-- Handler from the crate documentation: `GET /pets/{id}` with a declared
path parameter `id`, a `200` response referencing `Pet` and a bodyless
`404`. -/
def getPetHandler : HandlerDescriptor :=
  { method := .get, path := "/pets/{id}",
    params := [{ name := "id", location := .path, required := true,
                 schema := .primitive "integer" (some "int64") }],
    requestBody := none,
    responses := [⟨"200", "Pet found succesfully", some petDesc⟩,
                  ⟨"404", "Pet was not found", none⟩],
    tags := ["pet_api"], operationId := some "get_pet_by_id",
    deprecated := false, summary := some "Get pet by id",
    description := some "Get pet from database by pet id" }

/-- A second handler bound to the same `GET /pets/{id}` route. -/
def getPetHandlerDup : HandlerDescriptor :=
  { getPetHandler with operationId := some "get_pet_by_id_again" }

/-- The documentation handler with its template renamed to `/pets/{petId}`
without updating the declared parameter name. -/
def mismatchedHandler : HandlerDescriptor :=
  { getPetHandler with path := "/pets/{petId}" }

theorem no_dangling_refs_when_not_flagged_witness :
    "Pet" ∈ componentNames (build someInfo [getPetHandler] []).1 :=
  no_dangling_refs_when_not_flagged someInfo [getPetHandler] [] "Pet"
    (by decide) (by decide)

theorem schema_name_conflict_keeps_first_witness :
    (resolve (.obj "Pet" petFields) []).2.2 ++
        (resolve (.obj "Pet" petFields2)
          (resolve (.obj "Pet" petFields) []).2.1).2.2 =
      [.schemaNameConflict "Pet" (.obj "Pet" petFields)
        (.obj "Pet" petFields2)] ∧
    (resolve (.obj "Pet" petFields2)
        (resolve (.obj "Pet" petFields) []).2.1).2.1 =
      (resolve (.obj "Pet" petFields) []).2.1 ∧
    ∃ s, alistLookup (resolve (.obj "Pet" petFields) []).2.1 "Pet" =
        some ⟨.obj "Pet" petFields, some s⟩ :=
  schema_name_conflict_keeps_first "Pet" (.obj "Pet" petFields)
    (.obj "Pet" petFields2) [] (by decide) (by decide) (by decide)
    (by decide) (by decide)

theorem duplicate_route_keeps_first_witness :
    dupRouteCount (assemble ([getPetHandler] ++ [getPetHandlerDup])).diags
        getPetHandlerDup.path getPetHandlerDup.method =
      dupRouteCount (assemble [getPetHandler]).diags getPetHandlerDup.path
        getPetHandlerDup.method + 1 := by
  obtain ⟨op0, hocc⟩ := Option.isSome_iff_exists.mp
    (show (operationAt (assemble [getPetHandler]).paths getPetHandlerDup.path
        getPetHandlerDup.method).isSome = true by decide)
  exact (duplicate_route_keeps_first [getPetHandler] getPetHandlerDup op0 hocc).2

theorem path_param_mismatch_best_effort_witness :
    Diagnostic.unboundPathParameter "/pets/{petId}" "petId" ∈
        (processHandler ⟨[], [], [], []⟩ mismatchedHandler).diags ∧
      Diagnostic.unusedDeclaredParameter "/pets/{petId}" "id" ∈
        (processHandler ⟨[], [], [], []⟩ mismatchedHandler).diags := by
  have hmain := path_param_mismatch_best_effort ⟨[], [], [], []⟩ mismatchedHandler
  exact ⟨hmain.1 "petId" (by decide) (by decide),
         hmain.2.1 "id" (by decide) (by decide)⟩

theorem object_fields_properties_and_required_witness :
    ∃ props req,
      alistLookup (resolve (.obj "Pet" petFields) []).2.1 "Pet" =
        some ⟨.obj "Pet" petFields, some (.object props req)⟩ ∧
      props.keys = petFields.names ∧
      (∀ f d, (f, d, false) ∈ petFields.toList → f ∈ req) ∧
      (∀ f d, (f, d, true) ∈ petFields.toList → f ∉ req) :=
  object_fields_properties_and_required "Pet" petFields [] (by decide)
    (by decide)

theorem build_is_deterministic_witness :
    build someInfo [getPetHandler] [] = build someInfo [getPetHandler] [] :=
  build_is_deterministic someInfo someInfo [getPetHandler] [getPetHandler]
    [] [] rfl rfl rfl
